import Mathlib

/-!
Verification development for the ai-terminal-addon response-parsing and
safe-apply pipeline.  The definitions below are shallow embeddings of the
Python sources:

* `YAMLHandler.merge`            (app/yaml_tools.py, lines 80-99)
* `ConfigManager.create_backup`, `write_file`, `write_to_sandbox`,
  `restore_backup`               (app/config_manager.py)
* `AIAgent._parse_response`, `_apply_changes`, `_validate_config`
                                 (app/ai_agent.py)
* `BaseAgent.extract_yaml_from_response`  (app/agents/base_agent.py)

Python dictionaries are embedded as ordered association lists with the
insert-or-replace-in-place update that Python's `d[k] = v` performs; the
filesystem is an association list from path strings to file contents;
machine effects (writes, copies, validation calls) are recorded as an
explicit event trace.
-/

namespace AITerm

/-! ## Ordered association lists (the embedding of Python `dict`) -/

/-- Python `d[k]`-style lookup: the value at the first matching key. -/
def lookupA (l : List (String × α)) (k : String) : Option α :=
  match l with
  | [] => none
  | (k', v) :: rest => if k' = k then some v else lookupA rest k

/-- Python `d[k] = v`: replace the value at an existing key in place,
otherwise append the new binding at the end (insertion order). -/
def setA (l : List (String × α)) (k : String) (v : α) : List (String × α) :=
  match l with
  | [] => [(k, v)]
  | (k', v') :: rest => if k' = k then (k, v) :: rest else (k', v') :: setA rest k v

theorem lookupA_setA_self (l : List (String × α)) (k : String) (v : α) :
    lookupA (setA l k v) k = some v := by
  induction l with
  | nil => simp [setA, lookupA]
  | cons hd tl ih =>
    obtain ⟨k', v'⟩ := hd
    by_cases h : k' = k <;> simp [setA, lookupA, h, ih]

theorem lookupA_setA_ne (l : List (String × α)) (k k' : String) (v : α) (h : k ≠ k') :
    lookupA (setA l k v) k' = lookupA l k' := by
  induction l with
  | nil => simp [setA, lookupA, h]
  | cons hd tl ih =>
    obtain ⟨k0, v0⟩ := hd
    by_cases h0 : k0 = k
    · subst h0
      simp [setA, lookupA, h]
    · simp [setA, lookupA, h0, ih]

/-- Setting a key to the value it already holds (at its first occurrence)
leaves the association list unchanged. -/
theorem setA_lookup_self (l : List (String × α)) (k : String) (v : α)
    (h : lookupA l k = some v) : setA l k v = l := by
  induction l with
  | nil => simp [lookupA] at h
  | cons hd tl ih =>
    obtain ⟨k', v'⟩ := hd
    by_cases hk : k' = k
    · subst hk
      simp [lookupA] at h
      simp [setA, h]
    · simp [lookupA, hk] at h
      simp [setA, hk, ih h]

/-! ## The Python value model for `YAMLHandler.merge` (yaml_tools.py 80-99)

A parsed YAML document is a Python object: a `dict` (ordered map), or any
non-`dict` value, which `merge` treats opaquely (`isinstance(value, dict)`
is the only dynamic test the code performs). -/

inductive PyVal where
  | str : String → PyVal
  | int : Int → PyVal
  | list : List PyVal → PyVal
  | dict : List (String × PyVal) → PyVal

/-- `isinstance(v, dict)` -/
def PyVal.isDict : PyVal → Bool
  | .dict _ => true
  | _ => false

mutual

/-- Embedding of `YAMLHandler.merge` (yaml_tools.py 80-99):
`result = base.copy()`; then for each `(key, value)` of `update` in order,
if `key in result and isinstance(result[key], dict) and isinstance(value, dict)`
then `result[key] = self.merge(result[key], value)` else `result[key] = value`. -/
def mergeVals (base : List (String × PyVal)) : List (String × PyVal) → List (String × PyVal)
  | [] => base
  | (k, v) :: rest => mergeVals (mergeOne base k v) rest

/-- One iteration of the `merge` loop body for the binding `(k, v)`. -/
def mergeOne (base : List (String × PyVal)) (k : String) (v : PyVal) :
    List (String × PyVal) :=
  match lookupA base k, v with
  | some (PyVal.dict d), PyVal.dict u => setA base k (PyVal.dict (mergeVals d u))
  | some (PyVal.dict _), _ => setA base k v
  | some (PyVal.str _), _ => setA base k v
  | some (PyVal.int _), _ => setA base k v
  | some (PyVal.list _), _ => setA base k v
  | none, _ => setA base k v

end

mutual

/-- A well-formed image of a Python value: `dict` nodes never repeat a key
(Python dictionaries cannot), recursively. -/
def wfV : PyVal → Bool
  | .dict es => wfL es
  | .list _ => true
  | .str _ => true
  | .int _ => true

/-- Well-formedness of a `dict` entry list: keys are pairwise distinct and
the values are themselves well-formed. -/
def wfL : List (String × PyVal) → Bool
  | [] => true
  | (k, v) :: rest => !(rest.any fun kv => kv.1 = k) && wfV v && wfL rest

end

/-- In a well-formed entry list every entry is found by `lookupA` at its own
key (no earlier duplicate shadows it). -/
theorem lookupA_self_of_wf {d : List (String × PyVal)} (hwf : wfL d = true) :
    ∀ kv ∈ d, lookupA d kv.1 = some kv.2 := by
  induction d with
  | nil => intro kv h; simp at h
  | cons hd tl ih =>
    obtain ⟨k0, v0⟩ := hd
    simp only [wfL, Bool.and_eq_true, Bool.not_eq_true'] at hwf
    obtain ⟨⟨hnodup, _⟩, htl⟩ := hwf
    intro kv hmem
    rcases List.mem_cons.mp hmem with heq | hmem'
    · subst heq
      simp [lookupA]
    · have hne : kv.1 ≠ k0 := by
        intro h
        have : tl.any (fun kv' => kv'.1 = k0) = true :=
          List.any_eq_true.mpr ⟨kv, hmem', by simp [h]⟩
        simp [this] at hnodup
      rw [lookupA, if_neg (Ne.symm hne)]
      exact ih htl kv hmem'

/-- Main induction for merge idempotence: merging an update into a base that
already holds every binding of the update (and whose nested dictionaries are
duplicate-key free) is the identity. -/
theorem mergeVals_of_sub : ∀ (n : Nat) (upd : List (String × PyVal)),
    sizeOf upd ≤ n → ∀ base : List (String × PyVal), wfL upd = true →
    (∀ kv ∈ upd, lookupA base kv.1 = some kv.2) → mergeVals base upd = base := by
  intro n
  induction n with
  | zero =>
    intro upd hsz base _ _
    cases upd with
    | nil => rfl
    | cons hd tl =>
      simp only [List.cons.sizeOf_spec] at hsz
      omega
  | succ n ih =>
    intro upd hsz base hwf hsub
    cases upd with
    | nil => rfl
    | cons hd tl =>
      obtain ⟨k, v⟩ := hd
      have hlk : lookupA base k = some v := hsub (k, v) (List.mem_cons_self _ _)
      simp only [wfL, Bool.and_eq_true] at hwf
      obtain ⟨⟨_, hwv⟩, hwtl⟩ := hwf
      have hone : mergeOne base k v = base := by
        cases v with
        | dict u =>
          have hszu : sizeOf u ≤ n := by
            have h1 : sizeOf u < sizeOf ((k, PyVal.dict u) :: tl) := by
              simp only [List.cons.sizeOf_spec, Prod.mk.sizeOf_spec, PyVal.dict.sizeOf_spec]
              omega
            omega
          have hu : mergeVals u u = u :=
            ih u hszu u (by simpa [wfV] using hwv)
              (lookupA_self_of_wf (by simpa [wfV] using hwv))
          unfold mergeOne
          rw [hlk]
          show setA base k (PyVal.dict (mergeVals u u)) = base
          rw [hu]
          exact setA_lookup_self base k (PyVal.dict u) hlk
        | str s =>
          unfold mergeOne
          rw [hlk]
          exact setA_lookup_self base k _ hlk
        | int i =>
          unfold mergeOne
          rw [hlk]
          exact setA_lookup_self base k _ hlk
        | list vs =>
          unfold mergeOne
          rw [hlk]
          exact setA_lookup_self base k _ hlk
      have hsztl : sizeOf tl ≤ n := by
        have h1 : sizeOf tl < sizeOf ((k, v) :: tl) := by
          simp only [List.cons.sizeOf_spec, Prod.mk.sizeOf_spec]
          omega
        omega
      rw [mergeVals, hone]
      exact ih tl hsztl base hwtl
        (fun kv hmem => hsub kv (List.mem_cons_of_mem _ hmem))

/-! ## A heap semantics for `YAMLHandler.merge`

Python values live on a heap and `merge` receives references, so the
no-mutation (frame) property needs an explicit store.  Objects are either
dictionaries (ordered key → address maps) or opaque non-`dict` values;
addresses are indices into an allocation list that only grows.
`base.copy()` allocates a fresh dictionary sharing the entry list, and
every `result[key] = …` assignment targets that fresh address. -/

inductive HObj where
  | dict : List (String × Nat) → HObj
  | atom : Nat → HObj

/-- The heap: address `a` holds object `h[a]?`; allocation appends. -/
abbrev Heap := List HObj

mutual

/-- Heap-level embedding of `YAMLHandler.merge` (yaml_tools.py 80-99).
`fuel` bounds the recursion depth (Python would recurse likewise; a cyclic
store diverges there and exhausts fuel here, returning `none`).  Calling
`merge` on non-`dict` arguments is a dynamic error in the source
(`update.items()` / `base.copy()` would fail) and is `none` here too. -/
def mergeH : Nat → Heap → Nat → Nat → Option (Heap × Nat)
  | 0, _, _, _ => none
  | Nat.succ fuel, h, b, u =>
    match h[b]?, h[u]? with
    | some (HObj.dict bE), some (HObj.dict uE) =>
      match mergeLoop fuel (h ++ [HObj.dict bE]) h.length uE with
      | some h2 => some (h2, h.length)
      | none => none
    | _, _ => none

/-- The `for key, value in update.items()` loop of `merge`, acting on the
result dictionary at address `res` (fuel is threaded through each
iteration as well, so the pair is structurally recursive). -/
def mergeLoop : Nat → Heap → Nat → List (String × Nat) → Option Heap
  | _, h, _, [] => some h
  | 0, _, _, _ :: _ => none
  | Nat.succ fuel, h, res, (k, v) :: rest =>
    match h[res]? with
    | some (HObj.dict rE) =>
      match lookupA rE k with
      | some w =>
        match h[w]?, h[v]? with
        | some (HObj.dict _), some (HObj.dict _) =>
          match mergeH fuel h w v with
          | some (h2, r) =>
            match h2[res]? with
            | some (HObj.dict rE2) =>
              mergeLoop fuel (h2.set res (HObj.dict (setA rE2 k r))) res rest
            | _ => none
          | none => none
        | _, _ => mergeLoop fuel (h.set res (HObj.dict (setA rE k v))) res rest
      | none => mergeLoop fuel (h.set res (HObj.dict (setA rE k v))) res rest
    | _ => none

end

/-- The frame statement for `mergeH`: a successful merge allocates its result
at a fresh address and leaves every address of the input heap untouched. -/
def HFrame (fuel : Nat) : Prop :=
  ∀ (h : Heap) (b u : Nat) (h' : Heap) (res : Nat),
    mergeH fuel h b u = some (h', res) →
    h.length ≤ res ∧ h.length ≤ h'.length ∧ ∀ i, i < h.length → h'[i]? = h[i]?

/-- The frame statement for `mergeLoop`: the loop writes only to the result
address and to fresh allocations. -/
def LFrame (fuel : Nat) : Prop :=
  ∀ (items : List (String × Nat)) (h : Heap) (res : Nat) (h' : Heap),
    mergeLoop fuel h res items = some h' →
    h.length ≤ h'.length ∧ ∀ i, i < h.length → i ≠ res → h'[i]? = h[i]?

theorem frames_all (fuel : Nat) : HFrame fuel ∧ LFrame fuel := by
  induction fuel with
  | zero =>
    constructor
    · intro h b u h' res hm
      rw [mergeH] at hm
      exact absurd hm (by simp)
    · intro items h res h' hm
      cases items with
      | nil =>
        rw [mergeLoop] at hm
        cases hm
        exact ⟨le_refl _, fun i _ _ => rfl⟩
      | cons hd rest =>
        rw [mergeLoop] at hm
        exact absurd hm (by simp)
  | succ fuel ih =>
    obtain ⟨ihH, ihL⟩ := ih
    have hL : LFrame (Nat.succ fuel) := by
      intro items h res h' hm
      cases items with
      | nil =>
        rw [mergeLoop] at hm
        cases hm
        exact ⟨le_refl _, fun i _ _ => rfl⟩
      | cons hd rest =>
        obtain ⟨k, v⟩ := hd
        rw [mergeLoop] at hm
        split at hm
        next rE hres =>
          split at hm
          next w hlk =>
            split at hm
            next d1 d2 hw hv =>
              split at hm
              next h2 r hmh =>
                split at hm
                next rE2 hres2 =>
                  obtain ⟨hfr1, hfr2, hfr3⟩ := ihH h w v h2 r hmh
                  obtain ⟨hl1, hl2⟩ := ihL rest (h2.set res (HObj.dict (setA rE2 k r))) res h' hm
                  rw [List.length_set] at hl1
                  refine ⟨le_trans hfr2 hl1, fun i hi hne => ?_⟩
                  rw [hl2 i (by rw [List.length_set]; omega) hne,
                      List.getElem?_set_ne (Ne.symm hne), hfr3 i hi]
                next => exact absurd hm (by simp)
              next hmh => exact absurd hm (by simp)
            next hnd =>
              obtain ⟨hl1, hl2⟩ := ihL rest (h.set res (HObj.dict (setA rE k v))) res h' hm
              rw [List.length_set] at hl1
              refine ⟨hl1, fun i hi hne => ?_⟩
              rw [hl2 i (by rw [List.length_set]; omega) hne,
                  List.getElem?_set_ne (Ne.symm hne)]
          next hlk =>
            obtain ⟨hl1, hl2⟩ := ihL rest (h.set res (HObj.dict (setA rE k v))) res h' hm
            rw [List.length_set] at hl1
            refine ⟨hl1, fun i hi hne => ?_⟩
            rw [hl2 i (by rw [List.length_set]; omega) hne,
                List.getElem?_set_ne (Ne.symm hne)]
        next hres => exact absurd hm (by simp)
    refine ⟨?_, hL⟩
    intro h b u h' res hm
    rw [mergeH] at hm
    split at hm
    next bE uE hb hu =>
      split at hm
      next h2 hml =>
        obtain ⟨hml1, hml2⟩ := ihL uE (h ++ [HObj.dict bE]) h.length h2 hml
        rw [List.length_append, List.length_singleton] at hml1
        cases hm
        refine ⟨le_refl _, by omega, fun i hi => ?_⟩
        rw [hml2 i (by rw [List.length_append, List.length_singleton]; omega) (by omega),
            List.getElem?_append_left hi]
      next => exact absurd hm (by simp)
    next => exact absurd hm (by simp)

/-! ## Python string primitives used by the parser and the backup store

These are structural reimplementations (over character lists) of the exact
Python operations the sources use — `split`, `strip`, `startswith`,
`replace`, `join` — so that every definition evaluates by kernel
reduction. -/

/-- Split a character list at every occurrence of `sep` (Python
`s.split(sep)` for a one-character separator; empty pieces kept). -/
def splitOnC (sep : Char) : List Char → List (List Char)
  | [] => [[]]
  | c :: rest =>
    if c = sep then [] :: splitOnC sep rest
    else
      match splitOnC sep rest with
      | [] => [[c]]
      | p :: ps => (c :: p) :: ps

/-- Python `s.split(sep)` for a one-character separator. -/
def pySplit (s : String) (sep : Char) : List String :=
  (splitOnC sep s.data).map fun cs => ⟨cs⟩

/-- Python `sep.join(pieces)`. -/
def joinWith (sep : String) : List String → String
  | [] => ""
  | [x] => x
  | x :: xs => x ++ sep ++ joinWith sep xs

/-- Does `s` start with `pat` (Python `s.startswith(pat)`)?  The pattern is
the second argument. -/
def beginsWithL : List Char → List Char → Bool
  | _, [] => true
  | [], _ :: _ => false
  | c :: cs, p :: ps => c = p && beginsWithL cs ps

/-- Python `s.startswith(pat)`. -/
def pyStartsWith (s pat : String) : Bool :=
  beginsWithL s.data pat.data

/-- Left-to-right, non-overlapping replacement of `pat` by `rep`
(Python `s.replace(pat, rep)`); the `Nat` counts characters still to skip
after a match. -/
def replaceAux (pat rep : List Char) : Nat → List Char → List Char
  | _, [] => []
  | Nat.succ k, _ :: rest => replaceAux pat rep k rest
  | 0, c :: rest =>
    if beginsWithL (c :: rest) pat then rep ++ replaceAux pat rep (pat.length - 1) rest
    else c :: replaceAux pat rep 0 rest

/-- Python `s.replace(pat, rep)` (all occurrences). -/
def pyReplace (s pat rep : String) : String :=
  ⟨replaceAux pat.data rep.data 0 s.data⟩

/-- The whitespace set of Python's `str.strip()` / `str.split()`. -/
def isPySpace (c : Char) : Bool :=
  c = ' ' || c = '\t' || c = '\n' || c = '\r' || c = '\x0b' || c = '\x0c'

/-- Python `s.strip()`. -/
def pyStrip (s : String) : String :=
  ⟨((s.data.dropWhile isPySpace).reverse.dropWhile isPySpace).reverse⟩

/-- Python `s.split()` (split on whitespace runs, no empty pieces). -/
def pySplitWs (s : String) : List String :=
  ((splitOnC ' ' (s.data.map fun c => if isPySpace c then ' ' else c)).filter
    fun p => p ≠ []).map fun cs => ⟨cs⟩

/-- Python `pathlib.Path(p).name`: the final path component. -/
def lastComponent (p : String) : String :=
  match (pySplit p '/').reverse with
  | [] => p
  | c :: _ => c

/-- `".".join(name.split(".")[:-2])` — the original-filename recovery used by
`ConfigManager.restore_backup` (config_manager.py 107-109). -/
def dropLastTwoDotSegs (name : String) : String :=
  joinWith "." ((pySplit name '.').dropLast.dropLast)

/-- Python `Path(p).with_suffix(".ai.yaml")`: replace the extension of the
final component (append when it has none). -/
def withSuffixAi (p : String) : String :=
  let comps := pySplit p '/'
  let c := lastComponent p
  let parts := pySplit c '.'
  let stem :=
    if parts.length ≥ 2 ∧ parts.head? ≠ some "" then
      joinWith "." parts.dropLast
    else c
  joinWith "/" (comps.dropLast ++ [stem ++ ".ai.yaml"])

/-! ## The filesystem model

A filesystem state maps absolute path strings to file contents; writing
creates or overwrites, exactly as `Path.write_text` / `shutil.copy` do. -/

/-- Filesystem state: path → content. -/
abbrev FS := List (String × String)

/-! ## ConfigManager (config_manager.py) -/

structure CMCfg where
  configDir : String
  backupDir : String
  sandboxDir : String
  allowed : List String

/-- `ConfigManager.is_file_allowed` (config_manager.py 36-38). -/
def is_file_allowed (cm : CMCfg) (filename : String) : Bool :=
  cm.allowed.contains filename

/-- The live path `self.config_dir / filename`. -/
def livePath (cm : CMCfg) (filename : String) : String :=
  cm.configDir ++ "/" ++ filename

/-- The backup name `f"{filename}.{timestamp}.bak"` placed in the backup
directory (config_manager.py 90-92). -/
def backupDest (cm : CMCfg) (filename now : String) : String :=
  cm.backupDir ++ "/" ++ (filename ++ "." ++ now ++ ".bak")

/-- `ConfigManager.create_backup` (config_manager.py 84-97): `None` when no
live file exists, otherwise copy the live bytes to
`backup_dir / f"{filename}.{timestamp}.bak"`.  `now` is
`datetime.now().strftime("%Y%m%d_%H%M%S")`, the second-resolution
timestamp of the call. -/
def create_backup (cm : CMCfg) (fs : FS) (filename now : String) :
    FS × Option String :=
  match lookupA fs (livePath cm filename) with
  | none => (fs, none)
  | some bytes => (setA fs (backupDest cm filename now) bytes, some (backupDest cm filename now))

/-- `ConfigManager.write_file` (config_manager.py 53-75): resolve through the
allow-list (raising `PermissionError` otherwise, before any effect), back up
an existing live file when requested, then overwrite the live path. -/
def write_file (cm : CMCfg) (fs : FS) (filename content : String)
    (createBk : Bool) (now : String) : FS × Except String String :=
  if is_file_allowed cm filename then
    let fp := livePath cm filename
    let fs1 := if createBk && (lookupA fs fp).isSome then (create_backup cm fs filename now).1 else fs
    (setA fs1 fp content, Except.ok fp)
  else (fs, Except.error "PermissionError")

/-- `ConfigManager.write_to_sandbox` (config_manager.py 77-82). -/
def write_to_sandbox (cm : CMCfg) (fs : FS) (filename content : String) :
    FS × String :=
  (setA fs (cm.sandboxDir ++ "/" ++ filename) content, cm.sandboxDir ++ "/" ++ filename)

/-- The original filename `restore_backup` recovers from a backup path:
`".".join(backup_path.name.split(".")[:-2])` (config_manager.py 107-109). -/
def restored_name (backupPath : String) : String :=
  dropLastTwoDotSegs (lastComponent backupPath)

/-- `ConfigManager.restore_backup` (config_manager.py 104-123): derive the
original name from the backup file's name, re-check the allow-list (raising
before any effect), take a safety backup of the current live file, then copy
the backup's bytes onto the live path. -/
def restore_backup (cm : CMCfg) (fs : FS) (backupPath now : String) :
    FS × Except String String :=
  let origName := restored_name backupPath
  if is_file_allowed cm origName then
    let target := livePath cm origName
    let fs1 := if (lookupA fs target).isSome then (create_backup cm fs origName now).1 else fs
    match lookupA fs1 backupPath with
    | some bytes => (setA fs1 target bytes, Except.ok target)
    | none => (fs1, Except.error "FileNotFoundError")
  else (fs, Except.error "PermissionError")

/-! ## AIAgent._parse_response (ai_agent.py 178-212) -/

/-- Python truthiness of the `current_file` variable (`None` and the empty
string are falsy). -/
def truthyS : Option String → Bool
  | some s => s ≠ ""
  | none => false

/-- Parser state: the result dict, `current_file`, `current_content`, and
the `in_yaml_block` flag. -/
structure PState where
  files : List (String × String)
  currentFile : Option String
  currentContent : List String
  inYaml : Bool

/-- `files[current_file] = "\n".join(current_content)` guarded by
`if current_file and current_content:`. -/
def flushFiles (files : List (String × String)) (cf : Option String)
    (cc : List String) : List (String × String) :=
  match cf with
  | some f => if f ≠ "" ∧ cc ≠ [] then setA files f (joinWith "\n" cc) else files
  | none => files

/-- One line of the `_parse_response` loop (ai_agent.py 187-204). -/
def parseStep (st : PState) (line : String) : PState :=
  if pyStartsWith (pyStrip line) "# FILE:" then
    { files := flushFiles st.files st.currentFile st.currentContent
      currentFile := some (pyStrip (pyReplace line "# FILE:" ""))
      currentContent := []
      inYaml := true }
  else if pyStartsWith (pyStrip line) "```yaml" then
    { st with inYaml := true }
  else if pyStrip line = "```" ∧ st.inYaml then
    if truthyS st.currentFile ∧ st.currentContent ≠ [] then
      { files := flushFiles st.files st.currentFile st.currentContent
        currentFile := none
        currentContent := []
        inYaml := false }
    else { st with inYaml := false }
  else if st.inYaml ∧ truthyS st.currentFile then
    { st with currentContent := st.currentContent ++ [line] }
  else st

/-- The raw file map of `_parse_response` before its allow-list filter
(ai_agent.py 180-208): fold the line machine, then flush any still-open
buffer. -/
def parseFiles (response : String) : List (String × String) :=
  let st := (pySplit response '\n').foldl parseStep ⟨[], none, [], false⟩
  flushFiles st.files st.currentFile st.currentContent

/-- `AIAgent._parse_response` (ai_agent.py 178-212), including its final
allow-list comprehension `{k: v for k, v in files.items() if k in self.allowed_files}`. -/
def parse_response (allowed : List String) (response : String) :
    List (String × String) :=
  (parseFiles response).filter fun kv => allowed.contains kv.1

/-! ## BaseAgent.extract_yaml_from_response (base_agent.py 150-181) -/

/-- One line of the `extract_yaml_from_response` loop.  `none` models the
`IndexError` that `line.replace("# FILE:", "").strip().split()[0]` raises
on a marker line with no token after the marker; the fence-close branch
resets `current_file` unconditionally and plain lines are captured whenever
`in_yaml` is set, with or without a current file. -/
def extractStep (st : PState) (line : String) : Option PState :=
  if pyStartsWith (pyStrip line) "# FILE:" then
    match pySplitWs (pyStrip (pyReplace line "# FILE:" "")) with
    | [] => none
    | tok :: _ =>
      some { files := flushFiles st.files st.currentFile st.currentContent
             currentFile := some tok
             currentContent := []
             inYaml := true }
  else if pyStartsWith (pyStrip line) "```yaml" then
    some { st with inYaml := true }
  else if pyStrip line = "```" ∧ st.inYaml then
    some { files := flushFiles st.files st.currentFile st.currentContent
           currentFile := none
           currentContent := []
           inYaml := false }
  else if st.inYaml then
    some { st with currentContent := st.currentContent ++ [line] }
  else some st

/-- `BaseAgent.extract_yaml_from_response` (base_agent.py 150-181).  It takes
no allow-list: nothing is filtered.  `none` models a raised `IndexError`. -/
def extract_yaml_from_response (response : String) :
    Option (List (String × String)) :=
  match (pySplit response '\n').foldlM extractStep (⟨[], none, [], false⟩ : PState) with
  | some st => some (flushFiles st.files st.currentFile st.currentContent)
  | none => none

/-! ## AIAgent._apply_changes (ai_agent.py 214-261)

The engine's effects are recorded as an explicit trace: file-content writes
(`yaml_handler.write_file`), backup copies (`shutil.copy`) and invocations of
the validation hook (`_validate_config` → `ha_interface.check_config`). -/

inductive Event where
  | write : String → String → Event
  | copy : String → String → Event
  | validate : Bool → Event
deriving DecidableEq

/-- One per-file outcome dictionary appended to `results["files"]`. -/
structure FileResult where
  file : String
  action : String
  path : Option String
deriving DecidableEq

/-- The engine's per-cycle configuration (`AIAgent.__init__`, ai_agent.py
29-42): the mode string, the backup/sandbox toggles, the directories and
the allow-list. -/
structure AgentCfg where
  mode : String
  backupEnabled : Bool
  sandboxEnabled : Bool
  sandboxDir : String
  backupDir : String
  allowed : List String

/-- One iteration of the `_apply_changes` loop for `(filename, content)`
(ai_agent.py 218-259).  `confirm` is the `Confirm.ask` answer for the
filename, `chk` the value `ha_interface.check_config()` returns, `now` the
backup timestamp.  Returns the next filesystem, the appended results and
the emitted events. -/
def applyStep (cfg : AgentCfg) (now : String) (confirm : String → Bool)
    (chk : Bool) (fs : FS) (filename content : String) :
    FS × List FileResult × List Event :=
  if cfg.mode = "read_only" then
    (fs, [⟨filename, "displayed", none⟩], [])
  else if cfg.mode = "dry_run" then
    let aiPath :=
      if cfg.sandboxEnabled then cfg.sandboxDir ++ "/" ++ (filename ++ ".ai.yaml")
      else withSuffixAi ("/config/" ++ filename)
    (setA fs aiPath content, [⟨filename, "dry_run", some aiPath⟩], [Event.write aiPath content])
  else if cfg.mode = "apply" then
    if confirm filename then
      let fp := "/config/" ++ filename
      match (if cfg.backupEnabled then lookupA fs fp else none) with
      | some bytes =>
        let bp := cfg.backupDir ++ "/" ++ (filename ++ "." ++ now ++ ".bak")
        (setA (setA fs bp bytes) fp content, [⟨filename, "applied", none⟩],
          [Event.copy fp bp, Event.write fp content, Event.validate chk])
      | none =>
        (setA fs fp content, [⟨filename, "applied", none⟩],
          [Event.write fp content, Event.validate chk])
    else (fs, [], [])
  else (fs, [], [])

/-- The `for filename, content in files.items():` loop of `_apply_changes`,
accumulating results and events in order. -/
def applyGo (cfg : AgentCfg) (now : String) (confirm : String → Bool)
    (chk : Bool) : FS → List (String × String) → FS × List FileResult × List Event
  | fs, [] => (fs, [], [])
  | fs, (f, c) :: rest =>
    let s := applyStep cfg now confirm chk fs f c
    let r := applyGo cfg now confirm chk s.1 rest
    (r.1, s.2.1 ++ r.2.1, s.2.2 ++ r.2.2)

/-- The parse-then-apply pipeline of `AIAgent.process_request` steps 4 and 6
(ai_agent.py 160 and 174): `_parse_response` (with its allow-list filter)
feeding `_apply_changes`. -/
def processResponse (cfg : AgentCfg) (response now : String)
    (confirm : String → Bool) (chk : Bool) (fs : FS) :
    FS × List FileResult × List Event :=
  applyGo cfg now confirm chk fs (parse_response cfg.allowed response)

/-! ## General lemmas about the engine -/

theorem strAppend_left_cancel {a b c : String} (h : a ++ b = a ++ c) : b = c := by
  apply String.ext
  have h2 := congrArg String.data h
  simp only [String.data_append] at h2
  exact List.append_cancel_left h2

theorem strAppend_right_cancel {a b s : String} (h : a ++ s = b ++ s) : a = b := by
  apply String.ext
  have h2 := congrArg String.data h
  simp only [String.data_append] at h2
  exact List.append_cancel_right h2

/-- The dry-run staging path is injective in the filename. -/
theorem stagedPath_inj (d : String) :
    Function.Injective fun f => d ++ "/" ++ (f ++ ".ai.yaml") := by
  intro a b h
  exact strAppend_right_cancel (strAppend_left_cancel h)

/-- In dry-run mode with the sandbox enabled, the cycle records one
`dry_run` result and emits exactly one staged write per input file, in
order, and nothing else. -/
theorem applyGo_dry_run_trace (cfg : AgentCfg) (now : String)
    (confirm : String → Bool) (chk : Bool)
    (hmode : cfg.mode = "dry_run") (hsb : cfg.sandboxEnabled = true) :
    ∀ (files : List (String × String)) (fs : FS),
      (applyGo cfg now confirm chk fs files).2.1 =
        files.map (fun fc =>
          ⟨fc.1, "dry_run", some (cfg.sandboxDir ++ "/" ++ (fc.1 ++ ".ai.yaml"))⟩) ∧
      (applyGo cfg now confirm chk fs files).2.2 =
        files.map (fun fc =>
          Event.write (cfg.sandboxDir ++ "/" ++ (fc.1 ++ ".ai.yaml")) fc.2) := by
  intro files
  induction files with
  | nil => intro fs; exact ⟨rfl, rfl⟩
  | cons hd rest ih =>
    intro fs
    obtain ⟨f, c⟩ := hd
    have hstep : applyStep cfg now confirm chk fs f c =
        (setA fs (cfg.sandboxDir ++ "/" ++ (f ++ ".ai.yaml")) c,
         [⟨f, "dry_run", some (cfg.sandboxDir ++ "/" ++ (f ++ ".ai.yaml"))⟩],
         [Event.write (cfg.sandboxDir ++ "/" ++ (f ++ ".ai.yaml")) c]) := by
      simp [applyStep, hmode, hsb]
    obtain ⟨ih1, ih2⟩ := ih (setA fs (cfg.sandboxDir ++ "/" ++ (f ++ ".ai.yaml")) c)
    simp only [applyGo, hstep, List.map_cons]
    exact ⟨by rw [ih1]; rfl, by rw [ih2]; rfl⟩

/-- In apply mode, every per-file result carries the action `applied` and
names an input filename, and every write/copy event targets the live path
of an input filename. -/
theorem applyGo_apply_confined (cfg : AgentCfg) (now : String)
    (confirm : String → Bool) (chk : Bool) (hmode : cfg.mode = "apply") :
    ∀ (files : List (String × String)) (fs : FS),
      (∀ r ∈ (applyGo cfg now confirm chk fs files).2.1,
        r.file ∈ files.map Prod.fst ∧ r.action = "applied") ∧
      (∀ p c, Event.write p c ∈ (applyGo cfg now confirm chk fs files).2.2 →
        ∃ f ∈ files.map Prod.fst, p = "/config/" ++ f) ∧
      (∀ s d, Event.copy s d ∈ (applyGo cfg now confirm chk fs files).2.2 →
        ∃ f ∈ files.map Prod.fst, s = "/config/" ++ f) := by
  intro files
  induction files with
  | nil =>
    intro fs
    refine ⟨?_, ?_, ?_⟩ <;> simp [applyGo]
  | cons hd rest ih =>
    intro fs
    obtain ⟨f, c⟩ := hd
    by_cases hconf : confirm f = true
    · cases hbk : (if cfg.backupEnabled then lookupA fs ("/config/" ++ f) else none) with
      | none =>
        have hstep : applyStep cfg now confirm chk fs f c =
            (setA fs ("/config/" ++ f) c, [⟨f, "applied", none⟩],
             [Event.write ("/config/" ++ f) c, Event.validate chk]) := by
          simp [applyStep, hmode, hconf, hbk]
        obtain ⟨ih1, ih2, ih3⟩ := ih (setA fs ("/config/" ++ f) c)
        simp only [applyGo, hstep]
        refine ⟨?_, ?_, ?_⟩
        · intro r hr
          simp only [List.singleton_append, List.mem_cons] at hr
          rcases hr with rfl | hr
          · exact ⟨by simp, rfl⟩
          · obtain ⟨h1, h2⟩ := ih1 r hr
            exact ⟨by simp [h1], h2⟩
        · intro p c' hp
          simp only [List.mem_append, List.mem_cons, List.mem_singleton] at hp
          rcases hp with (heq | heq) | hp
          · obtain ⟨rfl, rfl⟩ := Event.write.inj heq
            exact ⟨f, by simp, rfl⟩
          · exact absurd heq (by simp)
          · obtain ⟨g, hg, hpg⟩ := ih2 p c' hp
            exact ⟨g, by simp [hg], hpg⟩
        · intro s d hs
          simp only [List.mem_append, List.mem_cons, List.mem_singleton] at hs
          rcases hs with (heq | heq) | hs
          · exact absurd heq (by simp)
          · exact absurd heq (by simp)
          · obtain ⟨g, hg, hsg⟩ := ih3 s d hs
            exact ⟨g, by simp [hg], hsg⟩
      | some bytes =>
        have hstep : applyStep cfg now confirm chk fs f c =
            (setA (setA fs (cfg.backupDir ++ "/" ++ (f ++ "." ++ now ++ ".bak")) bytes)
               ("/config/" ++ f) c,
             [⟨f, "applied", none⟩],
             [Event.copy ("/config/" ++ f) (cfg.backupDir ++ "/" ++ (f ++ "." ++ now ++ ".bak")),
              Event.write ("/config/" ++ f) c, Event.validate chk]) := by
          simp [applyStep, hmode, hconf, hbk]
        obtain ⟨ih1, ih2, ih3⟩ :=
          ih (setA (setA fs (cfg.backupDir ++ "/" ++ (f ++ "." ++ now ++ ".bak")) bytes)
               ("/config/" ++ f) c)
        simp only [applyGo, hstep]
        refine ⟨?_, ?_, ?_⟩
        · intro r hr
          simp only [List.singleton_append, List.mem_cons] at hr
          rcases hr with rfl | hr
          · exact ⟨by simp, rfl⟩
          · obtain ⟨h1, h2⟩ := ih1 r hr
            exact ⟨by simp [h1], h2⟩
        · intro p c' hp
          simp only [List.mem_append, List.mem_cons, List.mem_singleton] at hp
          rcases hp with (heq | heq | heq) | hp
          · exact absurd heq (by simp)
          · obtain ⟨rfl, rfl⟩ := Event.write.inj heq
            exact ⟨f, by simp, rfl⟩
          · exact absurd heq (by simp)
          · obtain ⟨g, hg, hpg⟩ := ih2 p c' hp
            exact ⟨g, by simp [hg], hpg⟩
        · intro s d hs
          simp only [List.mem_append, List.mem_cons, List.mem_singleton] at hs
          rcases hs with (heq | heq | heq) | hs
          · obtain ⟨rfl, rfl⟩ := Event.copy.inj heq
            exact ⟨f, by simp, rfl⟩
          · exact absurd heq (by simp)
          · exact absurd heq (by simp)
          · obtain ⟨g, hg, hsg⟩ := ih3 s d hs
            exact ⟨g, by simp [hg], hsg⟩
    · have hstep : applyStep cfg now confirm chk fs f c = (fs, [], []) := by
        simp [applyStep, hmode, hconf]
      obtain ⟨ih1, ih2, ih3⟩ := ih fs
      simp only [applyGo, hstep]
      refine ⟨?_, ?_, ?_⟩
      · intro r hr
        simp only [List.nil_append] at hr
        obtain ⟨h1, h2⟩ := ih1 r hr
        exact ⟨by simp [h1], h2⟩
      · intro p c' hp
        simp only [List.nil_append] at hp
        obtain ⟨g, hg, hpg⟩ := ih2 p c' hp
        exact ⟨g, by simp [hg], hpg⟩
      · intro s d hs
        simp only [List.nil_append] at hs
        obtain ⟨g, hg, hsg⟩ := ih3 s d hs
        exact ⟨g, by simp [hg], hsg⟩

/-- Is the event an invocation of the validate-configuration hook? -/
def isValidate : Event → Bool
  | Event.validate _ => true
  | _ => false

/-- Erase the pass/fail payload of validate events (for comparing traces
irrespective of the hook's outcome). -/
def eventShape : Event → Event
  | Event.validate _ => Event.validate true
  | e => e

/-- In apply mode the validate hook fires exactly once per confirmed file —
not once per batch. -/
theorem applyGo_validate_count (cfg : AgentCfg) (now : String)
    (confirm : String → Bool) (chk : Bool) (hmode : cfg.mode = "apply") :
    ∀ (files : List (String × String)) (fs : FS),
      (applyGo cfg now confirm chk fs files).2.2.countP isValidate =
        (files.filter fun fc => confirm fc.1).length := by
  intro files
  induction files with
  | nil => intro fs; simp [applyGo]
  | cons hd rest ih =>
    intro fs
    obtain ⟨f, c⟩ := hd
    by_cases hconf : confirm f = true
    · cases hbk : (if cfg.backupEnabled then lookupA fs ("/config/" ++ f) else none) with
      | none =>
        have hstep : applyStep cfg now confirm chk fs f c =
            (setA fs ("/config/" ++ f) c, [⟨f, "applied", none⟩],
             [Event.write ("/config/" ++ f) c, Event.validate chk]) := by
          simp [applyStep, hmode, hconf, hbk]
        simp only [applyGo, hstep]
        rw [List.countP_append, ih]
        simp only [hconf, isValidate, List.countP_cons, List.filter_cons, if_pos, List.length_cons]
        simp [isValidate]
        omega
      | some bytes =>
        have hstep : applyStep cfg now confirm chk fs f c =
            (setA (setA fs (cfg.backupDir ++ "/" ++ (f ++ "." ++ now ++ ".bak")) bytes)
               ("/config/" ++ f) c,
             [⟨f, "applied", none⟩],
             [Event.copy ("/config/" ++ f) (cfg.backupDir ++ "/" ++ (f ++ "." ++ now ++ ".bak")),
              Event.write ("/config/" ++ f) c, Event.validate chk]) := by
          simp [applyStep, hmode, hconf, hbk]
        simp only [applyGo, hstep]
        rw [List.countP_append, ih]
        simp only [hconf, isValidate, List.countP_cons, List.filter_cons, if_pos, List.length_cons]
        simp [isValidate]
        omega
    · have hstep : applyStep cfg now confirm chk fs f c = (fs, [], []) := by
        simp [applyStep, hmode, hconf]
      simp only [applyGo, hstep]
      rw [List.nil_append, ih]
      simp [hconf]

/-- One engine step is insensitive to the hook's return value: the same
filesystem, the same results, and the same events up to the validate
payload. -/
theorem applyStep_chk_independent (cfg : AgentCfg) (now : String)
    (confirm : String → Bool) (chk1 chk2 : Bool) (fs : FS) (f c : String) :
    (applyStep cfg now confirm chk1 fs f c).1 = (applyStep cfg now confirm chk2 fs f c).1 ∧
    (applyStep cfg now confirm chk1 fs f c).2.1 = (applyStep cfg now confirm chk2 fs f c).2.1 ∧
    (applyStep cfg now confirm chk1 fs f c).2.2.map eventShape =
      (applyStep cfg now confirm chk2 fs f c).2.2.map eventShape := by
  rw [applyStep, applyStep]
  split_ifs <;> try exact ⟨rfl, rfl, rfl⟩
  cases hlk : lookupA fs ("/config/" ++ f) <;> simp [hlk, eventShape]

/-- The whole cycle is insensitive to the hook's return value — in
particular a failing validation rolls nothing back. -/
theorem applyGo_chk_independent (cfg : AgentCfg) (now : String)
    (confirm : String → Bool) (chk1 chk2 : Bool) :
    ∀ (files : List (String × String)) (fs : FS),
      (applyGo cfg now confirm chk1 fs files).1 = (applyGo cfg now confirm chk2 fs files).1 ∧
      (applyGo cfg now confirm chk1 fs files).2.1 =
        (applyGo cfg now confirm chk2 fs files).2.1 ∧
      (applyGo cfg now confirm chk1 fs files).2.2.map eventShape =
        (applyGo cfg now confirm chk2 fs files).2.2.map eventShape := by
  intro files
  induction files with
  | nil => intro fs; exact ⟨rfl, rfl, rfl⟩
  | cons hd rest ih =>
    intro fs
    obtain ⟨f, c⟩ := hd
    obtain ⟨hs1, hs2, hs3⟩ := applyStep_chk_independent cfg now confirm chk1 chk2 fs f c
    simp only [applyGo]
    refine ⟨?_, ?_, ?_⟩
    · rw [hs1]
      exact (ih ((applyStep cfg now confirm chk2 fs f c).1)).1
    · rw [hs2, hs1, (ih ((applyStep cfg now confirm chk2 fs f c).1)).2.1]
    · rw [List.map_append, List.map_append, hs3, hs1,
        (ih ((applyStep cfg now confirm chk2 fs f c).1)).2.2]

/-! # Claims -/

/-- A successful `mergeH` implies both argument addresses were allocated. -/
theorem mergeH_args_lt (fuel : Nat) (h : Heap) (b u : Nat) (x : Heap × Nat)
    (hm : mergeH fuel h b u = some x) : b < h.length ∧ u < h.length := by
  cases fuel with
  | zero =>
    rw [mergeH] at hm
    exact absurd hm (by simp)
  | succ fuel =>
    rw [mergeH] at hm
    split at hm
    next bE uE hb hu =>
      constructor
      · by_contra hb'
        rw [List.getElem?_eq_none (by omega)] at hb
        cases hb
      · by_contra hu'
        rw [List.getElem?_eq_none (by omega)] at hu
        cases hu
    next => exact absurd hm (by simp)

/-- C9 (confirmed).  `YAMLHandler.merge` is idempotent: for any mapping `a`
whose image satisfies the Python-dict invariant (no duplicate keys at any
nesting level, which real `dict`s guarantee), `merge(a, a)` is structurally
equal to `a`. -/
theorem C9_merge_idempotent (a : List (String × PyVal)) (h : wfL a = true) :
    mergeVals a a = a :=
  mergeVals_of_sub (sizeOf a) a (le_refl _) a h (lookupA_self_of_wf h)

theorem C9_merge_idempotent_witness :
    wfL [("x", PyVal.int 1), ("y", PyVal.dict [("z", PyVal.str "s")])] = true ∧
    mergeVals [("x", PyVal.int 1), ("y", PyVal.dict [("z", PyVal.str "s")])]
      [("x", PyVal.int 1), ("y", PyVal.dict [("z", PyVal.str "s")])] =
      [("x", PyVal.int 1), ("y", PyVal.dict [("z", PyVal.str "s")])] :=
  ⟨rfl, C9_merge_idempotent _ rfl⟩

/-- C10 (confirmed).  `YAMLHandler.merge` mutates neither of its arguments:
after a completed call every address of the pre-call heap — in particular the
`base` and `update` dictionaries — holds exactly its pre-call object, and the
merged result lives at a freshly allocated address (`result = base.copy()`). -/
theorem C10_merge_mutates_neither (fuel : Nat) (h : Heap) (b u : Nat)
    (h' : Heap) (res : Nat) (hm : mergeH fuel h b u = some (h', res)) :
    (∀ i, i < h.length → h'[i]? = h[i]?) ∧
    h'[b]? = h[b]? ∧ h'[u]? = h[u]? ∧ h.length ≤ res := by
  obtain ⟨hres, hlen, hagree⟩ := (frames_all fuel).1 h b u h' res hm
  obtain ⟨hb, hu⟩ := mergeH_args_lt fuel h b u (h', res) hm
  exact ⟨hagree, hagree b hb, hagree u hu, hres⟩

theorem C10_merge_mutates_neither_witness :
    (∀ i, i < ([HObj.dict [("x", 1)], HObj.atom 7] : Heap).length →
        ([HObj.dict [("x", 1)], HObj.atom 7, HObj.dict [("x", 1)]] : Heap)[i]? =
        ([HObj.dict [("x", 1)], HObj.atom 7] : Heap)[i]?) ∧
    ([HObj.dict [("x", 1)], HObj.atom 7, HObj.dict [("x", 1)]] : Heap)[0]? =
        ([HObj.dict [("x", 1)], HObj.atom 7] : Heap)[0]? ∧
    ([HObj.dict [("x", 1)], HObj.atom 7, HObj.dict [("x", 1)]] : Heap)[0]? =
        ([HObj.dict [("x", 1)], HObj.atom 7] : Heap)[0]? ∧
    ([HObj.dict [("x", 1)], HObj.atom 7] : Heap).length ≤ 2 :=
  C10_merge_mutates_neither 2 [HObj.dict [("x", 1)], HObj.atom 7] 0 0
    [HObj.dict [("x", 1)], HObj.atom 7, HObj.dict [("x", 1)]] 2
    (by simp [mergeH, mergeLoop, lookupA, setA])

/-- C3 (counterexample).  Two `create_backup("sensors.yaml")` calls whose
second-resolution timestamps are identical do NOT produce distinct names:
both return exactly the same backup path (there is no sequence suffix in
`f"{filename}.{timestamp}.bak"`), so the second copy overwrites the first. -/
theorem C3_counterexample :
    (create_backup ⟨"/config", "/config/.ai_backups", "/config/ai_sandbox", ["sensors.yaml"]⟩
        [("/config/sensors.yaml", "v1")] "sensors.yaml" "20260101_120000").2 =
      some "/config/.ai_backups/sensors.yaml.20260101_120000.bak" ∧
    (create_backup ⟨"/config", "/config/.ai_backups", "/config/ai_sandbox", ["sensors.yaml"]⟩
        (create_backup ⟨"/config", "/config/.ai_backups", "/config/ai_sandbox", ["sensors.yaml"]⟩
          [("/config/sensors.yaml", "v1")] "sensors.yaml" "20260101_120000").1
        "sensors.yaml" "20260101_120000").2 =
      some "/config/.ai_backups/sensors.yaml.20260101_120000.bak" :=
  ⟨rfl, rfl⟩

/-- C3 (amended).  The backup name depends only on the filename and the
second-resolution timestamp — `backup_dir / f"{filename}.{timestamp}.bak"` —
so two same-second calls for the same filename return the identical name and
the second call overwrites the first backup's bytes with the live content it
sees; no sequence suffix exists. -/
theorem C3_same_second_backups_collide (cm : CMCfg) (fs : FS) (f now b1 : String)
    (h1 : lookupA fs (livePath cm f) = some b1)
    (hne : backupDest cm f now ≠ livePath cm f) :
    create_backup cm fs f now =
      (setA fs (backupDest cm f now) b1, some (backupDest cm f now)) ∧
    create_backup cm (setA fs (backupDest cm f now) b1) f now =
      (setA (setA fs (backupDest cm f now) b1) (backupDest cm f now) b1,
        some (backupDest cm f now)) := by
  have h2 : lookupA (setA fs (backupDest cm f now) b1) (livePath cm f) = some b1 := by
    rw [lookupA_setA_ne _ _ _ _ hne, h1]
  constructor
  · rw [create_backup, h1]
  · rw [create_backup, h2]

theorem C3_same_second_backups_collide_witness :
    create_backup ⟨"/config", "/config/.ai_backups", "/config/ai_sandbox", ["sensors.yaml"]⟩
        [("/config/sensors.yaml", "v1")] "sensors.yaml" "20260101_120000" =
      ([("/config/sensors.yaml", "v1"),
        ("/config/.ai_backups/sensors.yaml.20260101_120000.bak", "v1")],
       some "/config/.ai_backups/sensors.yaml.20260101_120000.bak") ∧
    create_backup ⟨"/config", "/config/.ai_backups", "/config/ai_sandbox", ["sensors.yaml"]⟩
        [("/config/sensors.yaml", "v1"),
         ("/config/.ai_backups/sensors.yaml.20260101_120000.bak", "v1")]
        "sensors.yaml" "20260101_120000" =
      ([("/config/sensors.yaml", "v1"),
        ("/config/.ai_backups/sensors.yaml.20260101_120000.bak", "v1")],
       some "/config/.ai_backups/sensors.yaml.20260101_120000.bak") :=
  C3_same_second_backups_collide
    ⟨"/config", "/config/.ai_backups", "/config/ai_sandbox", ["sensors.yaml"]⟩
    [("/config/sensors.yaml", "v1")] "sensors.yaml" "20260101_120000" "v1"
    (by decide) (by decide)

/-- C4 (confirmed).  In `ConfigManager.write_file` with backups enabled, a
backup is created iff a live file already exists: when the live path holds
`old`, exactly one new backup containing `old` is written before the live
path is overwritten with the new content; when no live file exists, the
write happens with no backup at all, and `create_backup` itself returns
`none` in that case. -/
theorem C4_backup_iff_live_file_exists (cm : CMCfg) (fs : FS) (f c now : String)
    (hallow : is_file_allowed cm f = true) :
    (lookupA fs (livePath cm f) = none →
      write_file cm fs f c true now =
        (setA fs (livePath cm f) c, Except.ok (livePath cm f)) ∧
      create_backup cm fs f now = (fs, none)) ∧
    (∀ old, lookupA fs (livePath cm f) = some old →
      write_file cm fs f c true now =
        (setA (setA fs (backupDest cm f now) old) (livePath cm f) c,
          Except.ok (livePath cm f))) := by
  constructor
  · intro hnone
    constructor
    · rw [write_file, if_pos hallow]
      simp [hnone]
    · rw [create_backup, hnone]
  · intro old hsome
    rw [write_file, if_pos hallow]
    simp only [hsome, Option.isSome_some, Bool.and_true, if_true, Bool.true_and]
    rw [create_backup, hsome]

theorem C4_backup_iff_live_file_exists_witness :
    (write_file ⟨"/config", "/config/.ai_backups", "/config/ai_sandbox", ["scripts.yaml"]⟩
        [] "scripts.yaml" "new" true "20260101_120000" =
      ([("/config/scripts.yaml", "new")], Except.ok "/config/scripts.yaml") ∧
      create_backup ⟨"/config", "/config/.ai_backups", "/config/ai_sandbox", ["scripts.yaml"]⟩
        [] "scripts.yaml" "20260101_120000" = ([], none)) ∧
    write_file ⟨"/config", "/config/.ai_backups", "/config/ai_sandbox", ["scripts.yaml"]⟩
        [("/config/scripts.yaml", "old")] "scripts.yaml" "new" true "20260101_120000" =
      ([("/config/scripts.yaml", "new"),
        ("/config/.ai_backups/scripts.yaml.20260101_120000.bak", "old")],
       Except.ok "/config/scripts.yaml") :=
  ⟨(C4_backup_iff_live_file_exists
      ⟨"/config", "/config/.ai_backups", "/config/ai_sandbox", ["scripts.yaml"]⟩
      [] "scripts.yaml" "new" "20260101_120000" (by decide)).1 rfl,
   (C4_backup_iff_live_file_exists
      ⟨"/config", "/config/.ai_backups", "/config/ai_sandbox", ["scripts.yaml"]⟩
      [("/config/scripts.yaml", "old")] "scripts.yaml" "new" "20260101_120000"
      (by decide)).2 "old" rfl⟩

/-- C8 (confirmed).  `ConfigManager.restore_backup` derives the original
filename by dropping the last two dot-separated segments of the backup's
name; when that name is not allow-listed it raises `PermissionError` with
the filesystem completely unchanged, and otherwise — when a live file
currently exists at the target — it first writes a fresh safety backup of
that current content and only then copies the backup's bytes onto the live
path. -/
theorem C8_restore_validates_and_backs_up (cm : CMCfg) (fs : FS)
    (backupPath now : String) :
    restored_name backupPath =
      joinWith "." ((pySplit (lastComponent backupPath) '.').dropLast.dropLast) ∧
    (is_file_allowed cm (restored_name backupPath) = false →
      restore_backup cm fs backupPath now = (fs, Except.error "PermissionError")) ∧
    (∀ cur bytes,
      is_file_allowed cm (restored_name backupPath) = true →
      lookupA fs (livePath cm (restored_name backupPath)) = some cur →
      lookupA fs backupPath = some bytes →
      backupDest cm (restored_name backupPath) now ≠ backupPath →
      restore_backup cm fs backupPath now =
        (setA (setA fs (backupDest cm (restored_name backupPath) now) cur)
            (livePath cm (restored_name backupPath)) bytes,
          Except.ok (livePath cm (restored_name backupPath)))) := by
  refine ⟨rfl, ?_, ?_⟩
  · intro hden
    rw [restore_backup]
    simp only [hden, Bool.false_eq_true, if_false]
  · intro cur bytes hallow hcur hbytes hne
    rw [restore_backup]
    simp only [hallow, if_true]
    rw [hcur]
    simp only [Option.isSome_some, if_true]
    rw [create_backup, hcur]
    rw [lookupA_setA_ne _ _ _ _ hne, hbytes]

theorem C8_restore_validates_and_backs_up_witness :
    (restore_backup ⟨"/config", "/config/.ai_backups", "/config/ai_sandbox", ["scripts.yaml"]⟩
        [("/config/secrets.yaml", "s")]
        "/config/.ai_backups/secrets.yaml.20260101_120000.bak" "20260101_130000" =
      ([("/config/secrets.yaml", "s")], Except.error "PermissionError")) ∧
    (restore_backup ⟨"/config", "/config/.ai_backups", "/config/ai_sandbox", ["scripts.yaml"]⟩
        [("/config/scripts.yaml", "cur"),
         ("/config/.ai_backups/scripts.yaml.20260101_120000.bak", "oldbytes")]
        "/config/.ai_backups/scripts.yaml.20260101_120000.bak" "20260101_130000" =
      ([("/config/scripts.yaml", "oldbytes"),
        ("/config/.ai_backups/scripts.yaml.20260101_120000.bak", "oldbytes"),
        ("/config/.ai_backups/scripts.yaml.20260101_130000.bak", "cur")],
       Except.ok "/config/scripts.yaml")) :=
  ⟨(C8_restore_validates_and_backs_up
      ⟨"/config", "/config/.ai_backups", "/config/ai_sandbox", ["scripts.yaml"]⟩
      [("/config/secrets.yaml", "s")]
      "/config/.ai_backups/secrets.yaml.20260101_120000.bak" "20260101_130000").2.1
      (by decide),
   (C8_restore_validates_and_backs_up
      ⟨"/config", "/config/.ai_backups", "/config/ai_sandbox", ["scripts.yaml"]⟩
      [("/config/scripts.yaml", "cur"),
       ("/config/.ai_backups/scripts.yaml.20260101_120000.bak", "oldbytes")]
      "/config/.ai_backups/scripts.yaml.20260101_120000.bak" "20260101_130000").2.2
      "cur" "oldbytes" (by decide) rfl rfl (by decide)⟩

/-- C6 (counterexample).  `_parse_response` DOES filter inside the parser:
on `"# FILE: secrets.yaml\nfoo"` the raw line machine captures
`secrets.yaml` with non-empty content `foo`, yet when `secrets.yaml` is not
in the allow-list the parser's returned map is empty — the filename does
not appear in the parse result, contradicting the claim that the result is
never filtered internally. -/
theorem C6_counterexample :
    parseFiles "# FILE: secrets.yaml\nfoo" = [("secrets.yaml", "foo")] ∧
    parse_response ["automations.yaml", "scripts.yaml", "scenes.yaml"]
      "# FILE: secrets.yaml\nfoo" = [] :=
  ⟨rfl, rfl⟩

/-- C6 (amended).  `_parse_response` returns exactly the allow-list
restriction of the raw marker/fence capture: a binding appears in its
result iff its filename is in the allow-list and it appears in the
unfiltered capture map.  (`extract_yaml_from_response`, by contrast, takes
no allow-list at all and returns the raw map unfiltered.) -/
theorem C6_parser_filters_allow_list (allowed : List String) (response f c : String) :
    (f, c) ∈ parse_response allowed response ↔
      allowed.contains f = true ∧ (f, c) ∈ parseFiles response := by
  rw [parse_response, List.mem_filter]
  exact ⟨fun h => ⟨h.2, h.1⟩, fun h => ⟨h.2, h.1⟩⟩

/-- C7 (counterexample).  On the marker line `"# FILE: a b"` the parser
`_parse_response` sets the current filename to the ENTIRE trimmed remainder
`"a b"`, not to the first whitespace-separated token `"a"`: the result maps
`"a b"` and holds nothing under `"a"`. -/
theorem C7_counterexample :
    parseFiles "# FILE: a b\nx" = [("a b", "x")] ∧
    lookupA (parseFiles "# FILE: a b\nx") "a" = none :=
  ⟨rfl, rfl⟩

/-- C7 (amended).  On a line whose stripped form starts with `# FILE:`,
`_parse_response` sets the current filename to the whole remainder after
removing the marker, stripped (not just the first token), resets the
buffer, raises the fence flag, and flushes a previously open file's
non-empty buffered content to the result map under the previous filename
(`flushFiles`) before switching; `extract_yaml_from_response` behaves the
same except that it keeps only the FIRST whitespace-separated token of
that remainder. -/
theorem C7_marker_line_transition (st : PState) (line : String)
    (hm : pyStartsWith (pyStrip line) "# FILE:" = true) :
    (parseStep st line).currentFile = some (pyStrip (pyReplace line "# FILE:" "")) ∧
    (parseStep st line).currentContent = [] ∧
    (parseStep st line).inYaml = true ∧
    (parseStep st line).files = flushFiles st.files st.currentFile st.currentContent ∧
    (∀ tok rest, pySplitWs (pyStrip (pyReplace line "# FILE:" "")) = tok :: rest →
      extractStep st line =
        some ⟨flushFiles st.files st.currentFile st.currentContent, some tok, [], true⟩) := by
  refine ⟨?_, ?_, ?_, ?_, ?_⟩
  · rw [parseStep, if_pos hm]
  · rw [parseStep, if_pos hm]
  · rw [parseStep, if_pos hm]
  · rw [parseStep, if_pos hm]
  · intro tok rest htok
    rw [extractStep, if_pos hm, htok]

theorem C7_marker_line_transition_witness :
    (parseStep ⟨[], some "prev", ["p"], true⟩ "# FILE: a b").currentFile =
      some (pyStrip (pyReplace "# FILE: a b" "# FILE:" "")) ∧
    (parseStep ⟨[], some "prev", ["p"], true⟩ "# FILE: a b").currentContent = [] ∧
    (parseStep ⟨[], some "prev", ["p"], true⟩ "# FILE: a b").inYaml = true ∧
    (parseStep ⟨[], some "prev", ["p"], true⟩ "# FILE: a b").files =
      flushFiles [] (some "prev") ["p"] ∧
    (∀ tok rest, pySplitWs (pyStrip (pyReplace "# FILE: a b" "# FILE:" "")) = tok :: rest →
      extractStep ⟨[], some "prev", ["p"], true⟩ "# FILE: a b" =
        some ⟨flushFiles [] (some "prev") ["p"], some tok, [], true⟩) :=
  C7_marker_line_transition ⟨[], some "prev", ["p"], true⟩ "# FILE: a b" rfl

/-- C1 (counterexample).  A DryRun cycle under the default configuration
(`SANDBOX_DIR=/config/ai_sandbox`, sandbox enabled) writes the staged file
at `/config/ai_sandbox/automations.yaml.ai.yaml` — a path under the live
configuration root `/config` — so "no path under the live configuration
root (/config) is ever opened for writing" is false as stated. -/
theorem C1_counterexample :
    (applyGo ⟨"dry_run", true, true, "/config/ai_sandbox", "/config/.ai_backups",
        ["automations.yaml", "scripts.yaml", "scenes.yaml"]⟩
      "20260101_120000" (fun _ => true) true [] [("automations.yaml", "x")]).2.2 =
      [Event.write "/config/ai_sandbox/automations.yaml.ai.yaml" "x"] ∧
    pyStartsWith "/config/ai_sandbox/automations.yaml.ai.yaml" "/config/" = true :=
  ⟨rfl, rfl⟩

/-- C1 (amended).  In every DryRun cycle with the sandbox enabled, the
engine's writes are exactly one staged write per input file, in order, at
`sandbox_dir / f"{filename}.ai.yaml"`, with a matching `dry_run` result per
file; distinct input filenames stage to distinct paths, so exactly one
staged file per input filename exists under the sandbox path afterwards.
(The sandbox path itself defaults to a subdirectory of `/config`, so the
staged writes may well land under the live configuration root; the live
file `config_dir / filename` itself is only at risk if it literally equals
some staged path.) -/
theorem C1_dry_run_stages_one_file_each (cfg : AgentCfg) (now : String)
    (confirm : String → Bool) (chk : Bool) (fs : FS)
    (files : List (String × String))
    (hmode : cfg.mode = "dry_run") (hsb : cfg.sandboxEnabled = true) :
    (applyGo cfg now confirm chk fs files).2.2 =
      files.map (fun fc =>
        Event.write (cfg.sandboxDir ++ "/" ++ (fc.1 ++ ".ai.yaml")) fc.2) ∧
    (applyGo cfg now confirm chk fs files).2.1 =
      files.map (fun fc =>
        ⟨fc.1, "dry_run", some (cfg.sandboxDir ++ "/" ++ (fc.1 ++ ".ai.yaml"))⟩) ∧
    ((files.map Prod.fst).Nodup →
      ((files.map Prod.fst).map fun f => cfg.sandboxDir ++ "/" ++ (f ++ ".ai.yaml")).Nodup) := by
  obtain ⟨h1, h2⟩ := applyGo_dry_run_trace cfg now confirm chk hmode hsb files fs
  exact ⟨h2, h1, fun hnd => hnd.map (stagedPath_inj cfg.sandboxDir)⟩

theorem C1_dry_run_stages_one_file_each_witness :
    (applyGo ⟨"dry_run", true, true, "/config/ai_sandbox", "/config/.ai_backups",
        ["automations.yaml", "scripts.yaml", "scenes.yaml"]⟩
      "20260101_120000" (fun _ => true) true []
      [("automations.yaml", "x"), ("scripts.yaml", "y")]).2.2 =
      [("automations.yaml", "x"), ("scripts.yaml", "y")].map (fun fc =>
        Event.write ("/config/ai_sandbox" ++ "/" ++ (fc.1 ++ ".ai.yaml")) fc.2) ∧
    (applyGo ⟨"dry_run", true, true, "/config/ai_sandbox", "/config/.ai_backups",
        ["automations.yaml", "scripts.yaml", "scenes.yaml"]⟩
      "20260101_120000" (fun _ => true) true []
      [("automations.yaml", "x"), ("scripts.yaml", "y")]).2.1 =
      [("automations.yaml", "x"), ("scripts.yaml", "y")].map (fun fc =>
        ⟨fc.1, "dry_run", some ("/config/ai_sandbox" ++ "/" ++ (fc.1 ++ ".ai.yaml"))⟩) ∧
    (([("automations.yaml", "x"), ("scripts.yaml", "y")].map Prod.fst).Nodup →
      (([("automations.yaml", "x"), ("scripts.yaml", "y")].map Prod.fst).map
        fun f => "/config/ai_sandbox" ++ "/" ++ (f ++ ".ai.yaml")).Nodup) :=
  C1_dry_run_stages_one_file_each
    ⟨"dry_run", true, true, "/config/ai_sandbox", "/config/.ai_backups",
      ["automations.yaml", "scripts.yaml", "scenes.yaml"]⟩
    "20260101_120000" (fun _ => true) true []
    [("automations.yaml", "x"), ("scripts.yaml", "y")] rfl rfl

/-- C2 (counterexample).  An Apply-mode cycle whose generated text names
`secrets.yaml` (not in the allow-list) records NO per-file result at all —
the raw capture does contain `secrets.yaml` with content, but the pipeline
silently filters it in `_parse_response`, so no `ApplyResult` with action
`Rejected` (or any action) is ever produced for it. -/
theorem C2_counterexample :
    parseFiles "# FILE: secrets.yaml\npassword: x" =
      [("secrets.yaml", "password: x")] ∧
    processResponse ⟨"apply", true, true, "/config/ai_sandbox", "/config/.ai_backups",
        ["automations.yaml", "scripts.yaml", "scenes.yaml"]⟩
      "# FILE: secrets.yaml\npassword: x" "20260101_120000" (fun _ => true) true [] =
      ([], [], []) :=
  ⟨rfl, rfl⟩

/-- C2 (amended).  In Apply mode a generated filename that is not in the
allow-list is dropped by `_parse_response`'s filter before the apply loop:
the engine records no per-file result for it (in particular never one with
action `Rejected` — the loop only ever records `applied` results), and the
file is never touched — no write to its live path and no backup copy of it
occurs. -/
theorem C2_disallowed_file_dropped_untouched (cfg : AgentCfg)
    (response now : String) (confirm : String → Bool) (chk : Bool) (fs : FS)
    (f : String) (hmode : cfg.mode = "apply")
    (hf : cfg.allowed.contains f = false) :
    (∀ r ∈ (processResponse cfg response now confirm chk fs).2.1,
      r.file ≠ f ∧ r.action ≠ "Rejected") ∧
    (∀ p c, Event.write p c ∈ (processResponse cfg response now confirm chk fs).2.2 →
      p ≠ "/config/" ++ f) ∧
    (∀ s d, Event.copy s d ∈ (processResponse cfg response now confirm chk fs).2.2 →
      s ≠ "/config/" ++ f) := by
  obtain ⟨hc1, hc2, hc3⟩ :=
    applyGo_apply_confined cfg now confirm chk hmode (parse_response cfg.allowed response) fs
  have hkey : ∀ g, g ∈ (parse_response cfg.allowed response).map Prod.fst → g ≠ f := by
    intro g hg hgf
    subst hgf
    obtain ⟨⟨g', c'⟩, hmem, hfst⟩ := List.mem_map.mp hg
    rw [parse_response, List.mem_filter] at hmem
    have := hmem.2
    simp only at hfst
    rw [hfst] at this
    rw [hf] at this
    cases this
  refine ⟨?_, ?_, ?_⟩
  · intro r hr
    obtain ⟨hmem, hact⟩ := hc1 r hr
    refine ⟨hkey r.file hmem, ?_⟩
    rw [hact]
    decide
  · intro p c hp
    obtain ⟨g, hg, rfl⟩ := hc2 p c hp
    intro hcontra
    exact hkey g hg (strAppend_left_cancel hcontra)
  · intro s d hs
    obtain ⟨g, hg, rfl⟩ := hc3 s d hs
    intro hcontra
    exact hkey g hg (strAppend_left_cancel hcontra)

theorem C2_disallowed_file_dropped_untouched_witness :
    (∀ r ∈ (processResponse ⟨"apply", true, true, "/config/ai_sandbox",
        "/config/.ai_backups", ["automations.yaml"]⟩
        "# FILE: secrets.yaml\npassword: x\n# FILE: automations.yaml\n- id: a1"
        "20260101_120000" (fun _ => true) true []).2.1,
      r.file ≠ "secrets.yaml" ∧ r.action ≠ "Rejected") ∧
    (∀ p c, Event.write p c ∈ (processResponse ⟨"apply", true, true, "/config/ai_sandbox",
        "/config/.ai_backups", ["automations.yaml"]⟩
        "# FILE: secrets.yaml\npassword: x\n# FILE: automations.yaml\n- id: a1"
        "20260101_120000" (fun _ => true) true []).2.2 →
      p ≠ "/config/" ++ "secrets.yaml") ∧
    (∀ s d, Event.copy s d ∈ (processResponse ⟨"apply", true, true, "/config/ai_sandbox",
        "/config/.ai_backups", ["automations.yaml"]⟩
        "# FILE: secrets.yaml\npassword: x\n# FILE: automations.yaml\n- id: a1"
        "20260101_120000" (fun _ => true) true []).2.2 →
      s ≠ "/config/" ++ "secrets.yaml") :=
  C2_disallowed_file_dropped_untouched
    ⟨"apply", true, true, "/config/ai_sandbox", "/config/.ai_backups", ["automations.yaml"]⟩
    "# FILE: secrets.yaml\npassword: x\n# FILE: automations.yaml\n- id: a1"
    "20260101_120000" (fun _ => true) true [] "secrets.yaml" rfl (by decide)

/-- C5 (counterexample).  An Apply-mode batch of two confirmed files emits
TWO validate-hook invocations — one immediately after each applied file's
write, the first occurring before the second file is processed — not a
single invocation after the whole batch. -/
theorem C5_counterexample :
    (applyGo ⟨"apply", true, true, "/config/ai_sandbox", "/config/.ai_backups",
        ["automations.yaml", "scripts.yaml"]⟩
      "20260101_120000" (fun _ => true) true []
      [("automations.yaml", "a"), ("scripts.yaml", "b")]).2.2 =
      [Event.write "/config/automations.yaml" "a", Event.validate true,
       Event.write "/config/scripts.yaml" "b", Event.validate true] ∧
    (applyGo ⟨"apply", true, true, "/config/ai_sandbox", "/config/.ai_backups",
        ["automations.yaml", "scripts.yaml"]⟩
      "20260101_120000" (fun _ => true) true []
      [("automations.yaml", "a"), ("scripts.yaml", "b")]).2.2.countP isValidate = 2 :=
  ⟨rfl, rfl⟩

/-- C5 (amended).  In Apply mode the validate-configuration hook is invoked
once per applied (confirmed) file, immediately after that file's write —
not once per batch after all files — and its pass/fail outcome is advisory
only: the resulting filesystem, the per-file results, and the event trace
up to the validate payload are identical whatever the hook returns, so a
failing validation rolls nothing back. -/
theorem C5_validation_per_file_and_advisory (cfg : AgentCfg) (now : String)
    (confirm : String → Bool) (chk chk1 chk2 : Bool) (fs : FS)
    (files : List (String × String)) (hmode : cfg.mode = "apply") :
    (applyGo cfg now confirm chk fs files).2.2.countP isValidate =
      (files.filter fun fc => confirm fc.1).length ∧
    (applyGo cfg now confirm chk1 fs files).1 =
      (applyGo cfg now confirm chk2 fs files).1 ∧
    (applyGo cfg now confirm chk1 fs files).2.1 =
      (applyGo cfg now confirm chk2 fs files).2.1 ∧
    (applyGo cfg now confirm chk1 fs files).2.2.map eventShape =
      (applyGo cfg now confirm chk2 fs files).2.2.map eventShape := by
  obtain ⟨h1, h2, h3⟩ := applyGo_chk_independent cfg now confirm chk1 chk2 files fs
  exact ⟨applyGo_validate_count cfg now confirm chk hmode files fs, h1, h2, h3⟩

theorem C5_validation_per_file_and_advisory_witness :
    (applyGo ⟨"apply", true, true, "/config/ai_sandbox", "/config/.ai_backups",
        ["automations.yaml", "scripts.yaml"]⟩
      "20260101_120000" (fun _ => true) true []
      [("automations.yaml", "a"), ("scripts.yaml", "b")]).2.2.countP isValidate =
      ([("automations.yaml", "a"), ("scripts.yaml", "b")].filter
        fun fc => (fun _ => true) fc.1).length ∧
    (applyGo ⟨"apply", true, true, "/config/ai_sandbox", "/config/.ai_backups",
        ["automations.yaml", "scripts.yaml"]⟩
      "20260101_120000" (fun _ => true) true []
      [("automations.yaml", "a"), ("scripts.yaml", "b")]).1 =
      (applyGo ⟨"apply", true, true, "/config/ai_sandbox", "/config/.ai_backups",
        ["automations.yaml", "scripts.yaml"]⟩
      "20260101_120000" (fun _ => true) false []
      [("automations.yaml", "a"), ("scripts.yaml", "b")]).1 ∧
    (applyGo ⟨"apply", true, true, "/config/ai_sandbox", "/config/.ai_backups",
        ["automations.yaml", "scripts.yaml"]⟩
      "20260101_120000" (fun _ => true) true []
      [("automations.yaml", "a"), ("scripts.yaml", "b")]).2.1 =
      (applyGo ⟨"apply", true, true, "/config/ai_sandbox", "/config/.ai_backups",
        ["automations.yaml", "scripts.yaml"]⟩
      "20260101_120000" (fun _ => true) false []
      [("automations.yaml", "a"), ("scripts.yaml", "b")]).2.1 ∧
    ((applyGo ⟨"apply", true, true, "/config/ai_sandbox", "/config/.ai_backups",
        ["automations.yaml", "scripts.yaml"]⟩
      "20260101_120000" (fun _ => true) true []
      [("automations.yaml", "a"), ("scripts.yaml", "b")]).2.2.map eventShape =
      (applyGo ⟨"apply", true, true, "/config/ai_sandbox", "/config/.ai_backups",
        ["automations.yaml", "scripts.yaml"]⟩
      "20260101_120000" (fun _ => true) false []
      [("automations.yaml", "a"), ("scripts.yaml", "b")]).2.2.map eventShape) :=
  C5_validation_per_file_and_advisory
    ⟨"apply", true, true, "/config/ai_sandbox", "/config/.ai_backups",
      ["automations.yaml", "scripts.yaml"]⟩
    "20260101_120000" (fun _ => true) true true false []
    [("automations.yaml", "a"), ("scripts.yaml", "b")] rfl

end AITerm
